import Mathlib

/-!
Verification of the ICD-10 MCP server's query-expansion, hierarchy-navigation
and batch-validation engine (`src/database/ICD10Database.ts`, `src/index.ts`).

Strings are modelled with Lean `String`; the JavaScript / SQLite string
primitives the source relies on (`toUpperCase`, `toLowerCase`, `trim`,
`includes`, first-occurrence `replace`, SQL `LIKE` with `%` and `_` wildcards
and ASCII case folding, binary-collation `ORDER BY`) are given explicit
executable definitions below.  SQLite rows are modelled as Lean lists in
table order; `SELECT ... ORDER BY` is modelled as a stable insertion sort of
the filtered rows.  The FTS5 ranking engine is external to the verified core
(the spec delegates it to the Code Store) and is modelled as an abstract
ranked row list.
-/

namespace ICD10

/-- ASCII upper-casing of one character, as both JavaScript `toUpperCase`
and SQLite's `LIKE` case folding perform it on the ASCII range. -/
def upChar (c : Char) : Char :=
  if c.isLower then Char.ofNat (c.toNat - 32) else c

/-- ASCII lower-casing of one character (JavaScript `toLowerCase` on ASCII). -/
def downChar (c : Char) : Char :=
  if c.isUpper then Char.ofNat (c.toNat + 32) else c

/-- JavaScript `String.prototype.toUpperCase` restricted to ASCII. -/
def jsToUpper (s : String) : String := ⟨s.data.map upChar⟩

/-- JavaScript `String.prototype.toLowerCase` restricted to ASCII. -/
def jsToLower (s : String) : String := ⟨s.data.map downChar⟩

/-- JavaScript `String.prototype.trim`: drop whitespace at both ends. -/
def jsTrim (s : String) : String :=
  ⟨((s.data.dropWhile Char.isWhitespace).reverse.dropWhile Char.isWhitespace).reverse⟩

/-- Substring test on char lists: does `needle` occur as a contiguous
segment of the list? (JavaScript `String.prototype.includes`.) -/
def segIn (needle : List Char) : List Char → Bool
  | [] => needle.isEmpty
  | c :: rest => needle.isPrefixOf (c :: rest) || segIn needle rest

/-- JavaScript `haystack.includes(needle)`. -/
def strIncludes (haystack needle : String) : Bool :=
  segIn needle.data haystack.data

/-- First-occurrence replacement on char lists (JavaScript
`String.prototype.replace` with a string pattern replaces only the first
occurrence, and returns the input unchanged when the pattern is absent). -/
def replFirstL (pat rep : List Char) : List Char → List Char
  | [] => if pat.isEmpty then rep else []
  | c :: rest =>
    if pat.isPrefixOf (c :: rest) then rep ++ (c :: rest).drop pat.length
    else c :: replFirstL pat rep rest

/-- JavaScript `s.replace(pat, rep)` (string pattern, first occurrence). -/
def jsReplaceFirst (s pat rep : String) : String :=
  ⟨replFirstL pat.data rep.data s.data⟩

/-- Literal-prefix test on strings (used to state what `LIKE 'u%'` would be
if the prefix were matched literally, as the spec describes). -/
def strIsPrefixOf (p s : String) : Bool := p.data.isPrefixOf s.data

/-- Lexicographic (memcmp-style) strict order on char lists: the order
SQLite's default BINARY collation gives `ORDER BY code` for ASCII text. -/
def charsLt : List Char → List Char → Bool
  | [], [] => false
  | [], _ :: _ => true
  | _ :: _, [] => false
  | a :: as, b :: bs =>
    if a.toNat < b.toNat then true
    else if b.toNat < a.toNat then false
    else charsLt as bs

/-- Strict binary-collation order on strings. -/
def strLtB (a b : String) : Bool := charsLt a.data b.data

/-- Non-strict binary-collation order on strings (`a <= b` in SQL). -/
def strLeB (a b : String) : Bool := !strLtB b a

/-- Stable insertion into a list sorted by the boolean relation `le`. -/
def insertSortedB (le : α → α → Bool) (x : α) : List α → List α
  | [] => [x]
  | y :: ys => if le x y then x :: y :: ys else y :: insertSortedB le x ys

/-- Stable insertion sort by the boolean relation `le`; models SQL
`ORDER BY` applied to rows taken in table order. -/
def insertionSortB (le : α → α → Bool) : List α → List α
  | [] => []
  | x :: xs => insertSortedB le x (insertionSortB le xs)

/-- SQL `LIKE` matching on char lists, fuel-indexed so that it is structural
(kernel-computable).  `%` matches any sequence, `_` any single character,
other characters match up to ASCII case folding — SQLite's default
case-insensitive `LIKE`.  A fuel of `pattern.length + text.length + 1`
always suffices (each step shortens the pattern or the text). -/
def likeMatchF : Nat → List Char → List Char → Bool
  | 0, _, _ => false
  | _ + 1, [], s => s.isEmpty
  | f + 1, pc :: ps, s =>
    if pc = '%' then
      likeMatchF f ps s ||
        (match s with
          | [] => false
          | _ :: s' => likeMatchF f (pc :: ps) s')
    else
      match s with
      | [] => false
      | sc :: s' =>
        (if pc = '_' then true else upChar pc == upChar sc) && likeMatchF f ps s'

/-- SQL `text LIKE pattern` with SQLite's default semantics. -/
def sqlLike (pattern text : String) : Bool :=
  likeMatchF (pattern.length + text.length + 1) pattern.data text.data

/-- No SQL LIKE wildcard characters in the list. -/
def noLikeMetaL (l : List Char) : Bool := l.all fun c => !(c == '%' || c == '_')

/-- No SQL LIKE wildcard characters in the string. -/
def noLikeMetaS (s : String) : Bool := noLikeMetaL s.data

/-- No lowercase ASCII letters in the list (so `LIKE`'s case folding and
JavaScript's `toUpperCase` are the identity on it). -/
def noLowerL (l : List Char) : Bool := l.all fun c => !c.isLower

/-- No lowercase ASCII letters in the string. -/
def noLowerS (s : String) : Bool := noLowerL s.data

/-- A row of the `icd10_codes` table (TS interface `ICD10Code`).  `DATE`
columns are ISO `YYYY-MM-DD` strings compared with SQLite's binary TEXT
comparison, modelled by `strLeB` / `strLtB`. -/
structure ICD10Code where
  code : String
  description : String
  category : String
  subcategory : Option String
  chapter_code : String
  chapter_name : String
  is_billable : Bool
  is_valid_primary : Bool
  effective_date : Option String
  end_date : Option String
  revision_year : Nat
deriving DecidableEq

/-- The SQL date-window condition used verbatim in `getCode`,
`validateCodes` and `searchCodes`:
`(effective_date IS NULL OR effective_date <= D) AND (end_date IS NULL OR end_date > D)`. -/
def inEffectB (r : ICD10Code) (d : String) : Bool :=
  (match r.effective_date with
    | none => true
    | some e => strLeB e d) &&
  (match r.end_date with
    | none => true
    | some t => strLtB d t)

/-- `getCode`: `SELECT * FROM icd10_codes WHERE code = ?` with the argument
upper-cased and the optional date-window condition (`ICD10Database.ts:147`). -/
def getCode (store : List ICD10Code) (code : String)
    (effectiveDate : Option String) : Option ICD10Code :=
  store.find? fun r =>
    r.code == jsToUpper code &&
      match effectiveDate with
      | none => true
      | some d => inEffectB r d

/-- A row of the `medical_synonyms` table.  The REAL `weight` column only
ever feeds `ORDER BY weight DESC`; the default data uses weights
1.0 / 0.9 / 0.8 / 0.7, represented here scaled by ten as naturals, which
yields the identical ordering. -/
structure MedicalSynonym where
  term : String
  synonym : String
  weight : Nat
  context : String
deriving DecidableEq

/-- A row of the `search_patterns` table. -/
structure SearchPattern where
  pattern : String
  expansion : String
  priority : Nat
deriving DecidableEq

/-- The synonym/pattern dictionary state (the two SQLite tables). -/
structure DictState where
  synonyms : List MedicalSynonym
  patterns : List SearchPattern

/-- `ORDER BY weight DESC` comparison for synonym rows. -/
def synLeB (a b : MedicalSynonym) : Bool := decide (b.weight ≤ a.weight)

/-- `ORDER BY priority DESC` comparison for pattern rows. -/
def patLeB (a b : SearchPattern) : Bool := decide (b.priority ≤ a.priority)

/-- `ORDER BY code` comparison for code rows (binary collation). -/
def codeLeB (a b : ICD10Code) : Bool := strLeB a.code b.code

/-- The hard-coded body-part vocabulary of `enhanceSearchQuery`
(`ICD10Database.ts:486`). -/
def bodyParts : List String :=
  ["arm", "leg", "bone", "head", "chest", "back", "neck", "shoulder",
   "knee", "hip", "ankle", "wrist", "elbow"]

/-- One iteration of the pattern loop body of `enhanceSearchQuery`
(`ICD10Database.ts:484`): try every body-part substitution in order
(`\x7bBODYPART\x7d` written with escaped braces), then the
non-parameterized literal test. -/
def matchPatternWith (lowerQuery : String) (p : SearchPattern) : Option String :=
  match bodyParts.find? (fun bodyPart =>
      strIncludes lowerQuery (jsToLower (jsReplaceFirst p.pattern "\x7bBODYPART\x7d" bodyPart))) with
  | some bodyPart => some (jsReplaceFirst p.expansion "\x7bBODYPART\x7d" bodyPart)
  | none =>
    if !strIncludes p.pattern "\x7b" && strIncludes lowerQuery (jsToLower p.pattern) then
      some p.expansion
    else none

/-- The pattern phase of `enhanceSearchQuery`: first matching pattern (in
the given order) wins and its expansion is returned. -/
def patternPhase (patterns : List SearchPattern) (lowerQuery : String) : Option String :=
  patterns.findSome? (matchPatternWith lowerQuery)

/-- JavaScript `\w` (`[A-Za-z0-9_]`). -/
def isWordChar (c : Char) : Bool := c.isAlphanum || c == '_'

/-- `word.replace(/[^\w]/g, '')`: strip non-word characters. -/
def cleanWordOf (w : String) : String := ⟨w.data.filter isWordChar⟩

/-- Helper for whitespace splitting: cut at every whitespace character. -/
def splitWsAux : List Char → List Char → List (List Char)
  | [], acc => [acc.reverse]
  | c :: rest, acc =>
    if c.isWhitespace then acc.reverse :: splitWsAux rest []
    else splitWsAux rest (c :: acc)

/-- JavaScript `s.split(/\s+/)` for the already-trimmed strings it is applied
to: the maximal non-whitespace runs (and `[""]` for the empty string, as in
JavaScript). -/
def splitWs (s : String) : List String :=
  if s.data.isEmpty then [s]
  else ((splitWsAux s.data []).map fun l => (⟨l⟩ : String)).filter fun w => w.length != 0

/-- JavaScript `Set.prototype.add`: append if not already present
(insertion order preserved). -/
def insertTerm (l : List String) (t : String) : List String :=
  if l.contains t then l else l ++ [t]

/-- `SELECT synonym, weight FROM medical_synonyms WHERE term = ? ORDER BY
weight DESC` over the synonym table in table order. -/
def synonymsFor (synonyms : List MedicalSynonym) (t : String) : List MedicalSynonym :=
  insertionSortB synLeB (synonyms.filter fun s => s.term == t)

/-- JavaScript `Array.prototype.join`. -/
def joinSep (sep : String) : List String → String
  | [] => ""
  | [x] => x
  | x :: y :: ys => x ++ sep ++ joinSep sep (y :: ys)

/-- The loop body of the term phase (`ICD10Database.ts:505`): skip the word
if its cleaned form is shorter than 3 characters, else add it and all its
synonyms to the expanded-term set. -/
def termStep (synonyms : List MedicalSynonym) (acc : List String)
    (word : String) : List String :=
  if (cleanWordOf word).length < 3 then acc
  else (synonymsFor synonyms (cleanWordOf word)).foldl
    (fun a s => insertTerm a s.synonym) (insertTerm acc (cleanWordOf word))

/-- The term phase of `enhanceSearchQuery` (`ICD10Database.ts:501`): split
on whitespace, drop tokens shorter than 3 characters after cleaning, union
each kept token with all its synonyms into an insertion-ordered set, and
join with ` OR `.  An empty set therefore joins to the empty string. -/
def termPhase (synonyms : List MedicalSynonym) (lowerQuery : String) : String :=
  joinSep " OR " ((splitWs lowerQuery).foldl (termStep synonyms) [])

/-- `enhanceSearchQuery` (`ICD10Database.ts:474`): normalize, try the
pattern phase over `SELECT pattern, expansion FROM search_patterns ORDER BY
priority DESC` (stable sort of the table), and fall through to the term
phase only when no pattern fired. -/
def enhanceSearchQuery (dict : DictState) (query : String) : String :=
  let lowerQuery := jsTrim (jsToLower query)
  match patternPhase (insertionSortB patLeB dict.patterns) lowerQuery with
  | some expansion => expansion
  | none => termPhase dict.synonyms lowerQuery

/-- The three hierarchy directions. -/
inductive HDirection
  | children
  | parents
  | siblings
deriving DecidableEq

/-- `substring(0, lastIndexOf '.')`: everything strictly before the last
dot (callers ensure a dot is present). -/
def beforeLastDot : List Char → List Char
  | [] => []
  | c :: rest => if rest.contains '.' then c :: beforeLastDot rest else []

/-- One strip step of the parents loop (`ICD10Database.ts:286`): drop a
trailing dot; else truncate at the last dot; else drop the last character. -/
def stripOnce (s : String) : String :=
  if s.data.getLast? = some '.' then ⟨s.data.dropLast⟩
  else if s.data.contains '.' then ⟨beforeLastDot s.data⟩
  else ⟨s.data.dropLast⟩

/-- `SELECT * FROM icd10_codes WHERE code = ?` (no date filter), as the
parents loop issues it. -/
def lookupCode (store : List ICD10Code) (s : String) : Option ICD10Code :=
  store.find? fun r => r.code == s

/-- The body of one parents-loop iteration: look the stripped string up
when it is nonempty (the JS `if (current)` truthiness guard) and append the
found record. -/
def parentsStep (store : List ICD10Code) (parents : List ICD10Code)
    (next : String) : List ICD10Code :=
  if next.length != 0 then
    match lookupCode store next with
    | some parent => parents ++ [parent]
    | none => parents
  else parents

/-- The parents `while` loop of `getHierarchy` (`ICD10Database.ts:285`),
fuel-indexed to stay structural; since every strip step strictly shortens
the string, a fuel of `current.length` covers all iterations. -/
def parentsLoopF (store : List ICD10Code) :
    Nat → String → List ICD10Code → Nat → List ICD10Code
  | 0, _, parents, _ => parents
  | f + 1, current, parents, maxDepth =>
    if 1 < current.length ∧ parents.length < maxDepth then
      parentsLoopF store f (stripOnce current)
        (parentsStep store parents (stripOnce current)) maxDepth
    else parents

/-- The chain of successive strips of a code while its length exceeds 1
(the candidate ancestors, nearest first).  Used only to state the spec's
reading of the parents loop. -/
def stripChainF : Nat → String → List String
  | 0, _ => []
  | f + 1, cur =>
    if 1 < cur.length then stripOnce cur :: stripChainF f (stripOnce cur) else []

/-- Modelled from the spec's description of **parents** (§4.2): iteratively
strip the code, look every nonempty strip up in the store, keep the found
ones nearest-first, and cut off at `maxDepth`. -/
def parentsSpec (store : List ICD10Code) (code : String) (maxDepth : Nat) :
    List ICD10Code :=
  ((((stripChainF (jsToUpper code).length (jsToUpper code)).filter
      fun s => s.length != 0).filterMap (lookupCode store)).take maxDepth)

/-- `getHierarchy` (`ICD10Database.ts:268`).  `children` is
`WHERE code LIKE 'u%' AND code != u ORDER BY code`; `parents` is the strip
loop; `siblings` derives the parent prefix and matches `LIKE 'parent.%'`
(decimal codes) or `LIKE 'parent%' AND LENGTH(code) = L` (non-decimal),
each `ORDER BY code`.  Only the parents branch reads `maxDepth`. -/
def getHierarchy (store : List ICD10Code) (code : String)
    (direction : HDirection) (maxDepth : Nat) : List ICD10Code :=
  let normalizedCode := jsToUpper code
  match direction with
  | .children =>
    insertionSortB codeLeB <| store.filter fun r =>
      sqlLike (normalizedCode ++ "%") r.code && !(r.code == normalizedCode)
  | .parents => parentsLoopF store normalizedCode.length normalizedCode [] maxDepth
  | .siblings =>
    if normalizedCode.data.contains '.' then
      let parent : String := ⟨beforeLastDot normalizedCode.data⟩
      insertionSortB codeLeB <| store.filter fun r =>
        sqlLike (parent ++ ".%") r.code && !(r.code == normalizedCode)
    else
      let parent : String :=
        if 1 < normalizedCode.length then ⟨normalizedCode.data.dropLast⟩
        else normalizedCode
      insertionSortB codeLeB <| store.filter fun r =>
        sqlLike (parent ++ "%") r.code &&
          r.code.length == normalizedCode.length && !(r.code == normalizedCode)

/-- The parent-prefix string the spec says all siblings share: everything
before the last dot for a decimal code, everything except the last
character for a non-decimal one. -/
def siblingParentStr (c : String) : String :=
  if c.data.contains '.' then ⟨beforeLastDot c.data⟩ else ⟨c.data.dropLast⟩

/-- One entry of the validation mapping (TS interface `ValidationResult`);
absent JS fields are `none`. -/
structure ValidationResult where
  valid : Bool
  billable : Bool
  description : Option String
  effective_date : Option String
  end_date : Option String
  warning : Option String
  error : Option String
deriving DecidableEq

/-- The per-code result `validateCodes` computes once the bulk
`WHERE code IN (...)` rows are keyed by `code` (`ICD10Database.ts:241`).
`code` is a PRIMARY KEY, so at most one row matches each normalized code
and `find?` is that keyed lookup. -/
def valResult (store : List ICD10Code) (checkBillable : Bool)
    (effectiveDate : Option String) (code : String) : ValidationResult :=
  match store.find? (fun r =>
      r.code == code &&
        match effectiveDate with
        | none => true
        | some d => inEffectB r d) with
  | some codeData =>
    { valid := true
      billable := codeData.is_billable
      description := some codeData.description
      effective_date := codeData.effective_date
      end_date := codeData.end_date
      warning :=
        if checkBillable && !codeData.is_billable then
          some "Code exists but is not billable"
        else none
      error := none }
  | none =>
    { valid := false, billable := false, description := none
      effective_date := none, end_date := none, warning := none
      error := some "Code not found" }

/-- JavaScript `result[k] = v` on an object modelled as an insertion-ordered
association list: overwrite an existing binding in place, else append. -/
def assocSet (m : List (String × ValidationResult)) (k : String)
    (v : ValidationResult) : List (String × ValidationResult) :=
  if m.any fun p => p.1 == k then
    m.map fun p => if p.1 == k then (k, v) else p
  else m ++ [(k, v)]

/-- `validateCodes` (`ICD10Database.ts:212`): normalize every input code to
upper case and fill the result object per normalized code. -/
def validateCodes (store : List ICD10Code) (codes : List String)
    (checkBillable : Bool) (effectiveDate : Option String) :
    List (String × ValidationResult) :=
  if codes.isEmpty then []
  else
    (codes.map jsToUpper).foldl
      (fun m code => assocSet m code (valResult store checkBillable effectiveDate code)) []

/-- Property access `result[k]` on the modelled object. -/
def lookupKey (m : List (String × ValidationResult)) (k : String) :
    Option ValidationResult :=
  (m.find? fun p => p.1 == k).map fun p => p.2

/-- `SearchOptions` of `searchCodes`. -/
structure SearchOptions where
  limit : Nat
  category_filter : Option (List String)
  billable_only : Bool
  effective_date : Option String

/-- `searchCodes` (`ICD10Database.ts:162`) downstream of the FTS5 ranking:
the FTS subquery (`MATCH ... ORDER BY rank LIMIT limit*2`) is external to
the verified core and enters as the abstract ranked row list `ftsRows`;
the SQL around it keeps rank order, applies the category / billable / date
filters and the final `LIMIT limit`. -/
def searchCodes (ftsRows : List ICD10Code) (opts : SearchOptions) :
    List ICD10Code :=
  (((ftsRows.take (opts.limit * 2)).filter fun r =>
      (match opts.category_filter with
        | some cf => if 0 < cf.length then cf.contains r.category else true
        | none => true) &&
      (if opts.billable_only then r.is_billable else true) &&
      (match opts.effective_date with
        | none => true
        | some d => inEffectB r d)).take opts.limit)

/-- The response of the `icd10_validate_batch` tool (`index.ts:287`). -/
structure ValidationResponse where
  total_codes : Nat
  valid_codes : Nat
  billable_codes : Nat
  invalid_codes : Nat
  validation_results : List (String × ValidationResult)
  effective_date : Option String
deriving DecidableEq

/-- `handleValidateBatch` (`index.ts:287`): run the batch validation and
reduce the result object's values to the summary counts. -/
def handleValidateBatch (store : List ICD10Code) (codes : List String)
    (check_billable : Bool) (effective_date : Option String) :
    ValidationResponse :=
  let validationResults := validateCodes store codes check_billable effective_date
  let validCount := (validationResults.filter fun p => p.2.valid).length
  let billableCount := (validationResults.filter fun p => p.2.billable).length
  { total_codes := codes.length
    valid_codes := validCount
    billable_codes := billableCount
    invalid_codes := codes.length - validCount
    validation_results := validationResults
    effective_date := effective_date }

/-- The response of the `icd10_hierarchy` tool (`index.ts:344`). -/
structure HierarchyResponse where
  base_code : ICD10Code
  direction : HDirection
  max_depth : Nat
  total_results : Nat
  results : List ICD10Code
deriving DecidableEq

/-- `handleHierarchy` (`index.ts:315`): navigate, then look the base code up
without a date filter; if absent, synthesize a placeholder from the first
navigation result when there is one (`firstResult.chapter_code || ''` is
the identity on the modelled total string fields, and
`firstResult.revision_year || 2024` replaces a zero/absent year), else fail
with the invalid-parameter error. -/
def handleHierarchy (store : List ICD10Code) (code : String)
    (direction : HDirection) (max_depth : Nat) :
    Except String HierarchyResponse :=
  let hierarchyResults := getHierarchy store code direction max_depth
  match getCode store code none with
  | some baseCode =>
    .ok { base_code := baseCode, direction := direction, max_depth := max_depth
          total_results := hierarchyResults.length, results := hierarchyResults }
  | none =>
    match hierarchyResults with
    | firstResult :: _ =>
      .ok { base_code :=
              { code := code
                description := code ++ " category codes"
                category := if 3 ≤ code.length then ⟨code.data.take 3⟩ else code
                subcategory := some code
                chapter_code := firstResult.chapter_code
                chapter_name := firstResult.chapter_name
                is_billable := false
                is_valid_primary := true
                effective_date := firstResult.effective_date
                end_date := none
                revision_year :=
                  if firstResult.revision_year = 0 then 2024
                  else firstResult.revision_year }
            direction := direction, max_depth := max_depth
            total_results := hierarchyResults.length, results := hierarchyResults }
    | [] =>
      .error ("No codes found for '" ++ code ++ "' and no hierarchy available")

/-- The built-in synonym rows of `initializeMedicalSynonyms`
(`ICD10Database.ts:394`), in insertion order; weights scaled by ten. -/
def defaultSynonyms : List MedicalSynonym :=
  [⟨"broken", "fracture", 10, "injury"⟩,
   ⟨"broken", "fractured", 9, "injury"⟩,
   ⟨"heart attack", "myocardial infarction", 10, "cardiac"⟩,
   ⟨"heart attack", "MI", 8, "cardiac"⟩,
   ⟨"heart attack", "cardiac arrest", 7, "cardiac"⟩,
   ⟨"stroke", "cerebrovascular accident", 10, "neurological"⟩,
   ⟨"stroke", "CVA", 9, "neurological"⟩,
   ⟨"high blood pressure", "hypertension", 10, "cardiovascular"⟩,
   ⟨"low blood pressure", "hypotension", 10, "cardiovascular"⟩,
   ⟨"sugar", "diabetes", 8, "endocrine"⟩,
   ⟨"sugar", "glucose", 7, "endocrine"⟩,
   ⟨"kidney", "renal", 10, "anatomy"⟩,
   ⟨"kidney", "nephro", 9, "anatomy"⟩,
   ⟨"liver", "hepatic", 10, "anatomy"⟩,
   ⟨"liver", "hepato", 9, "anatomy"⟩,
   ⟨"lung", "pulmonary", 10, "anatomy"⟩,
   ⟨"lung", "pneumo", 9, "anatomy"⟩,
   ⟨"brain", "cerebral", 10, "anatomy"⟩,
   ⟨"brain", "cranial", 9, "anatomy"⟩,
   ⟨"stomach", "gastric", 10, "anatomy"⟩,
   ⟨"stomach", "gastro", 9, "anatomy"⟩,
   ⟨"pain", "algia", 9, "symptom"⟩,
   ⟨"pain", "ache", 8, "symptom"⟩,
   ⟨"fever", "pyrexia", 10, "symptom"⟩,
   ⟨"fever", "febrile", 9, "symptom"⟩,
   ⟨"headache", "cephalgia", 10, "symptom"⟩,
   ⟨"headache", "migraine", 7, "symptom"⟩,
   ⟨"throwing up", "vomiting", 10, "symptom"⟩,
   ⟨"throwing up", "emesis", 9, "symptom"⟩,
   ⟨"cancer", "malignant", 9, "condition"⟩,
   ⟨"cancer", "neoplasm", 10, "condition"⟩,
   ⟨"cancer", "tumor", 8, "condition"⟩,
   ⟨"cancer", "carcinoma", 9, "condition"⟩,
   ⟨"infection", "infectious", 9, "condition"⟩,
   ⟨"infection", "sepsis", 7, "condition"⟩,
   ⟨"inflammation", "inflammatory", 10, "condition"⟩,
   ⟨"inflammation", "itis", 8, "condition"⟩]

/-- The built-in pattern rows of `initializeMedicalSynonyms`
(`ICD10Database.ts:455`), in insertion order; placeholder braces written
with `\x7b`/`\x7d` escapes, apostrophes with `\x27`. -/
def defaultPatterns : List SearchPattern :=
  [⟨"broken \x7bBODYPART\x7d", "fracture \x7bBODYPART\x7d", 10⟩,
   ⟨"\x7bBODYPART\x7d fracture", "fracture \x7bBODYPART\x7d", 9⟩,
   ⟨"pain in \x7bBODYPART\x7d", "\x7bBODYPART\x7d pain OR \x7bBODYPART\x7d algia", 8⟩,
   ⟨"\x7bBODYPART\x7d pain", "\x7bBODYPART\x7d algia OR painful \x7bBODYPART\x7d", 8⟩,
   ⟨"can\x27t breathe", "dyspnea OR respiratory distress OR shortness of breath", 10⟩,
   ⟨"trouble breathing", "dyspnea OR respiratory distress", 9⟩,
   ⟨"chest pain", "angina OR thoracic pain OR cardiac pain", 9⟩]

/-- The startup dictionary state. -/
def defaultDict : DictState := ⟨defaultSynonyms, defaultPatterns⟩

/-- Example catalog rows used by the spec's worked examples
(`E11, E11.9, E11.21, E11.22`). -/
def e11 : ICD10Code :=
  { code := "E11", description := "Type 2 diabetes mellitus", category := "E11"
    subcategory := none, chapter_code := "E00-E89"
    chapter_name := "Endocrine, nutritional and metabolic diseases"
    is_billable := false, is_valid_primary := true
    effective_date := none, end_date := none, revision_year := 2024 }

def e119 : ICD10Code :=
  { code := "E11.9"
    description := "Type 2 diabetes mellitus without complications"
    category := "E11", subcategory := some "E11.9", chapter_code := "E00-E89"
    chapter_name := "Endocrine, nutritional and metabolic diseases"
    is_billable := true, is_valid_primary := true
    effective_date := none, end_date := none, revision_year := 2024 }

def e1121 : ICD10Code :=
  { code := "E11.21"
    description := "Type 2 diabetes mellitus with diabetic nephropathy"
    category := "E11", subcategory := some "E11.21", chapter_code := "E00-E89"
    chapter_name := "Endocrine, nutritional and metabolic diseases"
    is_billable := true, is_valid_primary := true
    effective_date := none, end_date := none, revision_year := 2024 }

def e1122 : ICD10Code :=
  { code := "E11.22"
    description := "Type 2 diabetes mellitus with diabetic chronic kidney disease"
    category := "E11", subcategory := some "E11.22", chapter_code := "E00-E89"
    chapter_name := "Endocrine, nutritional and metabolic diseases"
    is_billable := true, is_valid_primary := true
    effective_date := none, end_date := none, revision_year := 2024 }

def exampleStore : List ICD10Code := [e11, e119, e1121, e1122]

/-- A dated variant of `E11.9` used to exercise the effective-date window. -/
def e119d : ICD10Code :=
  { e119 with effective_date := some "2020-01-01", end_date := some "2026-01-01" }

/-! ### Order lemmas for the binary-collation comparison -/

theorem charToNat_inj {a b : Char} (h : a.toNat = b.toNat) : a = b :=
  Char.ext_iff.mpr (UInt32.ext h)

theorem charsLt_irrefl : ∀ l, charsLt l l = false
  | [] => rfl
  | a :: as => by simp [charsLt, charsLt_irrefl as]

theorem charsLt_trans :
    ∀ l₁ l₂ l₃, charsLt l₁ l₂ = true → charsLt l₂ l₃ = true → charsLt l₁ l₃ = true := by
  intro l₁
  induction l₁ with
  | nil =>
    intro l₂ l₃ h₁ h₂
    cases l₂ with
    | nil => simp [charsLt] at h₁
    | cons b bs =>
      cases l₃ with
      | nil => simp [charsLt] at h₂
      | cons c cs => simp [charsLt]
  | cons a as ih =>
    intro l₂ l₃ h₁ h₂
    cases l₂ with
    | nil => simp [charsLt] at h₁
    | cons b bs =>
      cases l₃ with
      | nil => simp [charsLt] at h₂
      | cons c cs =>
        simp only [charsLt] at h₁ h₂ ⊢
        rcases Nat.lt_trichotomy a.toNat b.toNat with hab | hab | hab
        · rcases Nat.lt_trichotomy b.toNat c.toNat with hbc | hbc | hbc
          · rw [if_pos (by omega)]
          · rw [if_pos (by omega)]
          · rw [if_neg (by omega), if_pos hbc] at h₂
            simp at h₂
        · rw [if_neg (by omega), if_neg (by omega)] at h₁
          rcases Nat.lt_trichotomy b.toNat c.toNat with hbc | hbc | hbc
          · rw [if_pos (by omega)]
          · rw [if_neg (by omega), if_neg (by omega)] at h₂
            rw [if_neg (by omega), if_neg (by omega)]
            exact ih bs cs h₁ h₂
          · rw [if_neg (by omega), if_pos hbc] at h₂
            simp at h₂
        · rw [if_neg (by omega), if_pos hab] at h₁
          simp at h₁

theorem charsLt_connex :
    ∀ l₁ l₂, charsLt l₁ l₂ = false → charsLt l₂ l₁ = false → l₁ = l₂ := by
  intro l₁
  induction l₁ with
  | nil =>
    intro l₂ h₁ _
    cases l₂ with
    | nil => rfl
    | cons b bs => simp [charsLt] at h₁
  | cons a as ih =>
    intro l₂ h₁ h₂
    cases l₂ with
    | nil => simp [charsLt] at h₂
    | cons b bs =>
      simp only [charsLt] at h₁ h₂
      rcases Nat.lt_trichotomy a.toNat b.toNat with hab | hab | hab
      · rw [if_pos hab] at h₁; simp at h₁
      · rw [if_neg (by omega), if_neg (by omega)] at h₁
        rw [if_neg (by omega), if_neg (by omega)] at h₂
        rw [charToNat_inj hab, ih bs h₁ h₂]
      · rw [if_pos hab] at h₂; simp at h₂

theorem charsLt_asymm {l₁ l₂ : List Char} (h : charsLt l₁ l₂ = true) :
    charsLt l₂ l₁ = false := by
  cases hx : charsLt l₂ l₁ with
  | false => rfl
  | true =>
    have h2 := charsLt_trans l₁ l₂ l₁ h hx
    rw [charsLt_irrefl] at h2
    exact Bool.noConfusion h2

theorem codeLeB_total : ∀ a b : ICD10Code, codeLeB a b = false → codeLeB b a = true := by
  intro a b h
  simp only [codeLeB, strLeB, strLtB, Bool.not_eq_false'] at h
  simp only [codeLeB, strLeB, strLtB, charsLt_asymm h, Bool.not_false]

theorem codeLeB_trans :
    ∀ a b c : ICD10Code, codeLeB a b = true → codeLeB b c = true → codeLeB a c = true := by
  intro a b c h₁ h₂
  simp only [codeLeB, strLeB, strLtB, Bool.not_eq_true'] at h₁ h₂
  simp only [codeLeB, strLeB, strLtB, Bool.not_eq_true']
  cases hca : charsLt c.code.data a.code.data with
  | false => rfl
  | true =>
    cases hab : charsLt a.code.data b.code.data with
    | false =>
      rw [charsLt_connex _ _ hab h₁] at hca
      rw [hca] at h₂
      simp at h₂
    | true =>
      rw [charsLt_trans _ _ _ hca hab] at h₂
      simp at h₂

/-! ### Stable insertion sort lemmas -/

theorem insertSortedB_perm (le : α → α → Bool) (x : α) :
    ∀ l, (insertSortedB le x l).Perm (x :: l)
  | [] => List.Perm.refl _
  | y :: ys => by
    simp only [insertSortedB]
    by_cases h : le x y = true
    · rw [if_pos h]
    · rw [if_neg h]
      exact (List.Perm.cons y (insertSortedB_perm le x ys)).trans (List.Perm.swap x y ys)

theorem insertionSortB_perm (le : α → α → Bool) :
    ∀ l, (insertionSortB le l).Perm l
  | [] => List.Perm.refl _
  | x :: xs =>
    (insertSortedB_perm le x _).trans (List.Perm.cons x (insertionSortB_perm le xs))

theorem insertSortedB_pairwise (le : α → α → Bool)
    (htot : ∀ a b, le a b = false → le b a = true)
    (htrans : ∀ a b c, le a b = true → le b c = true → le a c = true) (x : α) :
    ∀ l, l.Pairwise (fun a b => le a b = true) →
      (insertSortedB le x l).Pairwise (fun a b => le a b = true)
  | [], _ => by simp [insertSortedB]
  | y :: ys, hp => by
    obtain ⟨hy, hys⟩ := List.pairwise_cons.1 hp
    simp only [insertSortedB]
    by_cases h : le x y = true
    · rw [if_pos h]
      refine List.pairwise_cons.2 ⟨?_, hp⟩
      intro z hz
      rcases List.mem_cons.1 hz with rfl | hzys
      · exact h
      · exact htrans x y z h (hy z hzys)
    · rw [if_neg h]
      have hxy : le x y = false := by
        cases hle : le x y
        · rfl
        · exact absurd hle h
      refine List.pairwise_cons.2 ⟨?_, insertSortedB_pairwise le htot htrans x ys hys⟩
      intro z hz
      rcases List.mem_cons.1 ((insertSortedB_perm le x ys).mem_iff.1 hz) with hzx | hm
      · rw [hzx]; exact htot x y hxy
      · exact hy z hm

theorem insertionSortB_pairwise (le : α → α → Bool)
    (htot : ∀ a b, le a b = false → le b a = true)
    (htrans : ∀ a b c, le a b = true → le b c = true → le a c = true) :
    ∀ l, (insertionSortB le l).Pairwise (fun a b => le a b = true)
  | [] => by simp [insertionSortB]
  | x :: xs =>
    insertSortedB_pairwise le htot htrans x _
      (insertionSortB_pairwise le htot htrans xs)

/-! ### SQL LIKE lemmas -/

theorem upChar_eq_self {c : Char} (h : c.isLower = false) : upChar c = c := by
  simp [upChar, h]

theorem likeMatchF_percent :
    ∀ (s : List Char) (f : Nat), s.length + 2 ≤ f → likeMatchF f ['%'] s = true := by
  intro s
  induction s with
  | nil =>
    intro f hf
    match f, hf with
    | f'' + 2, _ => simp [likeMatchF]
  | cons c s' ih =>
    intro f hf
    match f, hf with
    | f' + 1, hf =>
      simp only [likeMatchF, if_pos rfl]
      rw [ih f' (by simp at hf ⊢; omega)]
      simp

theorem likeMatchF_prefix_percent :
    ∀ (p : List Char), noLikeMetaL p = true → noLowerL p = true →
      ∀ (s : List Char) (f : Nat), noLowerL s = true → p.length + s.length + 2 ≤ f →
        likeMatchF f (p ++ ['%']) s = p.isPrefixOf s := by
  intro p
  induction p with
  | nil =>
    intro _ _ s f hs hf
    simp only [List.nil_append]
    rw [likeMatchF_percent s f (by simp at hf; omega)]
    simp [List.isPrefixOf]
  | cons c p' ih =>
    intro hmeta hlow s f hs hf
    simp only [noLikeMetaL, List.all_cons, Bool.and_eq_true, Bool.not_eq_true',
      Bool.or_eq_false_iff, beq_eq_false_iff_ne, ne_eq] at hmeta
    obtain ⟨⟨hcpc, hcus⟩, hmeta'⟩ := hmeta
    simp only [noLowerL, List.all_cons, Bool.and_eq_true, Bool.not_eq_true'] at hlow
    obtain ⟨hclow, hlow'⟩ := hlow
    match f, hf with
    | f' + 1, hf =>
      simp only [List.cons_append, likeMatchF]
      rw [if_neg hcpc]
      cases s with
      | nil => simp [List.isPrefixOf]
      | cons sc s' =>
        simp only [noLowerL, List.all_cons, Bool.and_eq_true, Bool.not_eq_true'] at hs
        obtain ⟨hsclow, hs'⟩ := hs
        show ((if c = '_' then true else upChar c == upChar sc) &&
            likeMatchF f' (p' ++ ['%']) s') = (c :: p').isPrefixOf (sc :: s')
        rw [if_neg hcus, upChar_eq_self hclow, upChar_eq_self hsclow]
        rw [ih hmeta' (by simpa [noLowerL] using hlow') s' f'
          (by simpa [noLowerL] using hs') (by simp at hf ⊢; omega)]
        simp [List.isPrefixOf]

theorem strData_mk (l : List Char) : (⟨l⟩ : String).data = l := rfl

theorem strLength_data (s : String) : s.length = s.data.length := rfl

theorem sqlLike_data_eq (p : List Char) (t : String) (hmeta : noLikeMetaL p = true)
    (hlowp : noLowerL p = true) (hlowt : noLowerS t = true)
    (pat : String) (hpat : pat.data = p ++ ['%']) :
    sqlLike pat t = p.isPrefixOf t.data := by
  unfold sqlLike
  rw [hpat]
  have hlen : pat.length = p.length + 1 := by
    rw [strLength_data, hpat]; simp
  rw [hlen]
  exact likeMatchF_prefix_percent p hmeta hlowp t.data _ hlowt (by rw [strLength_data]; omega)

/-! ### Miscellaneous string lemmas -/

theorem allB_of_sub (p : Char → Bool) {l l' : List Char}
    (hsub : ∀ c ∈ l', c ∈ l) (h : l.all p = true) : l'.all p = true := by
  rw [List.all_eq_true] at h ⊢
  exact fun c hc => h c (hsub c hc)

theorem beforeLastDot_sub : ∀ l : List Char, ∀ c ∈ beforeLastDot l, c ∈ l := by
  intro l
  induction l with
  | nil => intro c hc; simp [beforeLastDot] at hc
  | cons a rest ih =>
    intro c hc
    simp only [beforeLastDot] at hc
    by_cases hdot : rest.contains '.'
    · rw [if_pos hdot] at hc
      rcases List.mem_cons.1 hc with hca | hcr
      · rw [hca]; exact List.mem_cons_self a rest
      · exact List.mem_cons_of_mem a (ih c hcr)
    · rw [if_neg hdot] at hc; simp at hc

theorem beforeLastDot_len : ∀ l : List Char, l ≠ [] → (beforeLastDot l).length < l.length := by
  intro l
  induction l with
  | nil => intro h; exact absurd rfl h
  | cons a rest ih =>
    intro _
    simp only [beforeLastDot]
    by_cases hdot : rest.contains '.'
    · rw [if_pos hdot]
      have hne : rest ≠ [] := by
        intro he; rw [he] at hdot; simp [List.contains] at hdot
      have := ih hne
      simp only [List.length_cons]
      omega
    · rw [if_neg hdot]; simp

theorem isPrefixOf_append_left : ∀ (p q s : List Char),
    (p ++ q).isPrefixOf s = true → p.isPrefixOf s = true := by
  intro p
  induction p with
  | nil => intro q s _; simp [List.isPrefixOf]
  | cons c p' ih =>
    intro q s h
    cases s with
    | nil => simp [List.isPrefixOf] at h
    | cons sc s' =>
      simp only [List.cons_append, List.isPrefixOf, Bool.and_eq_true] at h ⊢
      exact ⟨h.1, ih q s' h.2⟩

theorem mapUp_eq_self : ∀ l : List Char, noLowerL l = true → l.map upChar = l := by
  intro l
  induction l with
  | nil => intro _; rfl
  | cons c rest ih =>
    intro h
    simp only [noLowerL, List.all_cons, Bool.and_eq_true, Bool.not_eq_true'] at h
    simp only [List.map_cons]
    rw [upChar_eq_self h.1, ih (by simpa [noLowerL] using h.2)]

theorem jsToUpper_eq_self {s : String} (h : noLowerS s = true) : jsToUpper s = s := by
  unfold jsToUpper
  rw [mapUp_eq_self s.data h]

theorem jsToUpper_length (s : String) : (jsToUpper s).length = s.length := by
  rw [strLength_data (jsToUpper s), strLength_data s]
  show (s.data.map upChar).length = s.data.length
  simp

/-! ### Parents-loop lemmas -/

theorem stripOnce_length_lt (s : String) (h : s.data ≠ []) :
    (stripOnce s).length < s.length := by
  unfold stripOnce
  split
  · simp only [strLength_data, strData_mk]
    rw [List.length_dropLast]
    have := List.length_pos.2 h
    omega
  · split
    · simp only [strLength_data, strData_mk]
      exact beforeLastDot_len s.data h
    · simp only [strLength_data, strData_mk]
      rw [List.length_dropLast]
      have := List.length_pos.2 h
      omega

theorem parentsLoopF_fuel (store : List ICD10Code) :
    ∀ (f : Nat) (cur : String) (acc : List ICD10Code) (d : Nat), cur.length ≤ f →
      parentsLoopF store (f + 1) cur acc d = parentsLoopF store f cur acc d := by
  intro f
  induction f with
  | zero =>
    intro cur acc d hf
    show parentsLoopF store 1 cur acc d = parentsLoopF store 0 cur acc d
    conv_lhs => rw [parentsLoopF]
    rw [if_neg fun hc => absurd hc.1 (by omega)]
    rfl
  | succ g ih =>
    intro cur acc d hf
    conv_lhs => rw [parentsLoopF]
    conv_rhs => rw [parentsLoopF]
    by_cases hc : 1 < cur.length ∧ acc.length < d
    · rw [if_pos hc, if_pos hc]
      have hne : cur.data ≠ [] := by
        intro he
        have h1 := hc.1
        rw [strLength_data, he] at h1
        simp at h1
      have hlt := stripOnce_length_lt cur hne
      exact ih (stripOnce cur) _ d (by omega)
    · rw [if_neg hc, if_neg hc]

theorem parentsLoopF_eq_spec (store : List ICD10Code) :
    ∀ (f : Nat) (cur : String) (acc : List ICD10Code) (d : Nat), acc.length ≤ d →
      parentsLoopF store f cur acc d
        = acc ++ ((((stripChainF f cur).filter fun s => s.length != 0).filterMap
            (lookupCode store)).take (d - acc.length)) := by
  intro f
  induction f with
  | zero => intro cur acc d _; simp [parentsLoopF, stripChainF]
  | succ g ih =>
    intro cur acc d hacc
    conv_lhs => rw [parentsLoopF]
    conv_rhs => rw [stripChainF]
    by_cases hc : 1 < cur.length ∧ acc.length < d
    · rw [if_pos hc, if_pos hc.1]
      by_cases hne : ((stripOnce cur).length != 0) = true
      · rw [List.filter_cons, if_pos hne]
        cases hfind : lookupCode store (stripOnce cur) with
        | some p =>
          simp only [List.filterMap_cons, hfind]
          have hd : d - acc.length = (d - (acc.length + 1)) + 1 := by omega
          rw [hd, List.take_succ_cons]
          have hstep : parentsStep store acc (stripOnce cur) = acc ++ [p] := by
            unfold parentsStep
            rw [if_pos hne, hfind]
          rw [hstep, ih (stripOnce cur) (acc ++ [p]) d (by simp; omega)]
          simp
        | none =>
          simp only [List.filterMap_cons, hfind]
          have hstep : parentsStep store acc (stripOnce cur) = acc := by
            unfold parentsStep
            rw [if_pos hne, hfind]
          rw [hstep, ih (stripOnce cur) acc d hacc]
      · rw [List.filter_cons, if_neg hne]
        have hstep : parentsStep store acc (stripOnce cur) = acc := by
          unfold parentsStep
          rw [if_neg hne]
        rw [hstep, ih (stripOnce cur) acc d hacc]
    · rw [if_neg hc]
      by_cases h1 : 1 < cur.length
      · rw [if_pos h1]
        have h0 : d - acc.length = 0 := by
          have h2 : ¬ acc.length < d := fun h => hc ⟨h1, h⟩
          omega
        rw [h0]
        simp
      · rw [if_neg h1]
        simp

theorem getHierarchy_parents_eq (store : List ICD10Code) (c : String) (d : Nat) :
    getHierarchy store c .parents d = parentsSpec store c d := by
  show parentsLoopF store (jsToUpper c).length (jsToUpper c) [] d = parentsSpec store c d
  rw [parentsLoopF_eq_spec store (jsToUpper c).length (jsToUpper c) [] d (by simp)]
  unfold parentsSpec
  simp

/-! ### Claim theorems: hierarchy navigation -/

/-- C3 counterexample: `navigate` children uses SQL `LIKE`, whose `_`
wildcard matches any single character, so for the query code `"E_1"` over
the spec's example store the code returns all four stored records, none of
which has `"E_1"` as a literal string prefix — while the claim's
literal-prefix reading predicts the empty list. -/
theorem hierarchy_children_like_cex :
    getHierarchy exampleStore "E_1" .children 2 = [e11, e1121, e1122, e119]
    ∧ (exampleStore.filter fun r =>
        strIsPrefixOf (jsToUpper "E_1") r.code && !(r.code == jsToUpper "E_1")) = []
    ∧ getHierarchy exampleStore "E_1" .children 2
        ≠ (exampleStore.filter fun r =>
            strIsPrefixOf (jsToUpper "E_1") r.code && !(r.code == jsToUpper "E_1")) :=
  ⟨by decide, by decide, by decide⟩

/-- C3 (amended): for query codes whose upper-cased form contains no SQL
LIKE wildcard (`%`, `_`), over stores whose ids contain no lowercase ASCII
letters (the canonical form `insertCode` produces), `navigate(c, children,
d)` returns exactly the stored codes having upper-cased `c` as a literal
strict prefix, in lexicographic order, with `maxDepth` ignored; and the
spec's example returns `[E11.21, E11.22, E11.9]`. -/
theorem hierarchy_children_amended :
    (∀ (store : List ICD10Code) (c : String) (d d' : Nat),
      (∀ r ∈ store, noLowerS r.code = true) →
      noLikeMetaS (jsToUpper c) = true →
      noLowerS (jsToUpper c) = true →
      (getHierarchy store c .children d).Perm
          (store.filter fun r =>
            strIsPrefixOf (jsToUpper c) r.code && !(r.code == jsToUpper c))
      ∧ (getHierarchy store c .children d).Pairwise (fun a b => codeLeB a b = true)
      ∧ getHierarchy store c .children d = getHierarchy store c .children d')
    ∧ getHierarchy exampleStore "E11" .children 2 = [e1121, e1122, e119] := by
  constructor
  · intro store c d d' hstore hmeta hlow
    have hfilter : (store.filter fun r =>
          sqlLike (jsToUpper c ++ "%") r.code && !(r.code == jsToUpper c))
        = store.filter fun r =>
          strIsPrefixOf (jsToUpper c) r.code && !(r.code == jsToUpper c) := by
      apply List.filter_congr
      intro r hr
      rw [sqlLike_data_eq (jsToUpper c).data r.code hmeta hlow (hstore r hr)
        (jsToUpper c ++ "%") (by rw [String.data_append])]
      rfl
    have hch : ∀ dd : Nat, getHierarchy store c .children dd
        = insertionSortB codeLeB (store.filter fun r =>
            sqlLike (jsToUpper c ++ "%") r.code && !(r.code == jsToUpper c)) :=
      fun dd => rfl
    refine ⟨?_, ?_, ?_⟩
    · rw [hch d, hfilter]
      exact insertionSortB_perm codeLeB _
    · rw [hch d]
      exact insertionSortB_pairwise codeLeB codeLeB_total codeLeB_trans _
    · rw [hch d, hch d']
  · decide

/-- Witness for the amended C3 theorem at the spec's example store and
query `"E11"`. -/
theorem hierarchy_children_amended_witness :
    (getHierarchy exampleStore "E11" .children 2).Perm
        (exampleStore.filter fun r =>
          strIsPrefixOf (jsToUpper "E11") r.code && !(r.code == jsToUpper "E11"))
    ∧ (getHierarchy exampleStore "E11" .children 2).Pairwise
        (fun a b => codeLeB a b = true)
    ∧ getHierarchy exampleStore "E11" .children 2
        = getHierarchy exampleStore "E11" .children 5 :=
  hierarchy_children_amended.1 exampleStore "E11" 2 5 (by decide) (by decide) (by decide)

/-- C4: the parents navigation equals the spec's reading — iterated
stripping, nonempty strips looked up in the store, found records kept
nearest-first, truncated at `maxDepth` (so its length is at most
`maxDepth`, and strips that resolve to no stored code are skipped) — and
`navigate("E11.9", parents, 2)` over the example store is exactly `[E11]`. -/
theorem hierarchy_parents_spec :
    (∀ (store : List ICD10Code) (c : String) (d : Nat),
      getHierarchy store c .parents d = parentsSpec store c d
      ∧ (getHierarchy store c .parents d).length ≤ d)
    ∧ getHierarchy exampleStore "E11.9" .parents 2 = [e11] := by
  constructor
  · intro store c d
    have he := getHierarchy_parents_eq store c d
    refine ⟨he, ?_⟩
    rw [he]
    unfold parentsSpec
    rw [List.length_take]
    exact min_le_left _ _
  · decide

/-- C5: the parents loop terminates — every strip step strictly shortens a
nonempty string, fuel beyond the string's length never changes the loop's
result, and a code of length at most one (in particular a single-character
code) yields no parents. -/
theorem hierarchy_parents_termination :
    (∀ s : String, s.data ≠ [] → (stripOnce s).length < s.length)
    ∧ (∀ (store : List ICD10Code) (f : Nat) (cur : String)
        (acc : List ICD10Code) (d : Nat), cur.length ≤ f →
        parentsLoopF store (f + 1) cur acc d = parentsLoopF store f cur acc d)
    ∧ (∀ (store : List ICD10Code) (c : String) (d : Nat), c.length ≤ 1 →
        getHierarchy store c .parents d = []) := by
  refine ⟨stripOnce_length_lt, parentsLoopF_fuel, ?_⟩
  intro store c d hc
  show parentsLoopF store (jsToUpper c).length (jsToUpper c) [] d = []
  rcases Nat.le_one_iff_eq_zero_or_eq_one.1 hc with h0 | h1
  · rw [jsToUpper_length, h0]
    rfl
  · rw [jsToUpper_length, h1]
    conv_lhs => rw [parentsLoopF]
    rw [if_neg]
    intro hcond
    have := hcond.1
    rw [jsToUpper_length, h1] at this
    omega

/-- Witness for C5 at concrete inputs. -/
theorem hierarchy_parents_termination_witness :
    (stripOnce "E11.9").length < ("E11.9" : String).length
    ∧ parentsLoopF exampleStore 6 "E11.9" [] 2 = parentsLoopF exampleStore 5 "E11.9" [] 2
    ∧ getHierarchy exampleStore "E" .parents 3 = [] :=
  ⟨hierarchy_parents_termination.1 "E11.9" (by decide),
   hierarchy_parents_termination.2.1 exampleStore 5 "E11.9" [] 2 (by decide),
   hierarchy_parents_termination.2.2 exampleStore "E" 3 (by decide)⟩

/-- C6: over canonical stores (upper-case ids) and wildcard-free queried
codes, every sibling differs from the queried code, shares its derived
parent prefix (before the last dot for decimal codes, all but the last
character otherwise), has the same string length when the code has no dot,
and the sibling result ignores `maxDepth`; the example siblings of
`E11.9` are `[E11.21, E11.22]`. -/
theorem hierarchy_siblings_invariant :
    (∀ (store : List ICD10Code) (c : String) (d d' : Nat),
      (∀ x ∈ store, noLowerS x.code = true) →
      noLowerS c = true → noLikeMetaS c = true →
      (∀ r ∈ getHierarchy store c .siblings d,
          r.code ≠ c
          ∧ strIsPrefixOf (siblingParentStr c) r.code = true
          ∧ (c.data.contains '.' = false → r.code.length = c.length))
      ∧ getHierarchy store c .siblings d = getHierarchy store c .siblings d')
    ∧ getHierarchy exampleStore "E11.9" .siblings 2 = [e1121, e1122] := by
  constructor
  · intro store c d d' hstore hlow hmeta
    have hu : jsToUpper c = c := jsToUpper_eq_self hlow
    refine ⟨?_, rfl⟩
    intro r hr
    have heq : getHierarchy store c .siblings d
        = (if (jsToUpper c).data.contains '.' then
            insertionSortB codeLeB (store.filter fun x =>
              sqlLike ((⟨beforeLastDot (jsToUpper c).data⟩ : String) ++ ".%") x.code
                && !(x.code == jsToUpper c))
          else
            insertionSortB codeLeB (store.filter fun x =>
              sqlLike ((if 1 < (jsToUpper c).length then
                  (⟨(jsToUpper c).data.dropLast⟩ : String)
                else jsToUpper c) ++ "%") x.code
                && x.code.length == (jsToUpper c).length
                && !(x.code == jsToUpper c))) := rfl
    rw [heq, hu] at hr
    by_cases hdot : c.data.contains '.'
    · rw [if_pos hdot] at hr
      have hr' := List.mem_filter.1 ((insertionSortB_perm codeLeB _).mem_iff.1 hr)
      obtain ⟨hrs, hp⟩ := hr'
      rw [Bool.and_eq_true] at hp
      obtain ⟨hlike, hne⟩ := hp
      have hmb : noLikeMetaL (beforeLastDot c.data) = true :=
        allB_of_sub _ (beforeLastDot_sub c.data) hmeta
      have hlb : noLowerL (beforeLastDot c.data) = true :=
        allB_of_sub _ (beforeLastDot_sub c.data) hlow
      have hmeta2 : noLikeMetaL (beforeLastDot c.data ++ ['.']) = true := by
        unfold noLikeMetaL at hmb ⊢
        rw [List.all_append, hmb]
        decide
      have hlow2 : noLowerL (beforeLastDot c.data ++ ['.']) = true := by
        unfold noLowerL at hlb ⊢
        rw [List.all_append, hlb]
        decide
      rw [sqlLike_data_eq (beforeLastDot c.data ++ ['.']) r.code hmeta2 hlow2
        (hstore r hrs) _
        (by rw [String.data_append, strData_mk]
            show beforeLastDot c.data ++ ['.', '%'] = beforeLastDot c.data ++ ['.'] ++ ['%']
            exact (List.append_assoc (beforeLastDot c.data) ['.'] ['%']).symm)] at hlike
      refine ⟨by simpa using hne, ?_, ?_⟩
      · unfold siblingParentStr strIsPrefixOf
        rw [if_pos hdot, strData_mk]
        exact isPrefixOf_append_left _ _ _ hlike
      · intro hcontra
        rw [hdot] at hcontra
        exact Bool.noConfusion hcontra
    · rw [if_neg hdot] at hr
      have hr' := List.mem_filter.1 ((insertionSortB_perm codeLeB _).mem_iff.1 hr)
      obtain ⟨hrs, hp⟩ := hr'
      rw [Bool.and_eq_true, Bool.and_eq_true] at hp
      obtain ⟨⟨hlike, hlen⟩, hne⟩ := hp
      refine ⟨by simpa using hne, ?_, fun _ => by simpa using hlen⟩
      unfold siblingParentStr strIsPrefixOf
      rw [if_neg hdot, strData_mk]
      by_cases h1 : 1 < c.length
      · rw [if_pos h1] at hlike
        have hmd : noLikeMetaL c.data.dropLast = true :=
          allB_of_sub _ (fun x hx => List.dropLast_subset c.data hx) hmeta
        have hld : noLowerL c.data.dropLast = true :=
          allB_of_sub _ (fun x hx => List.dropLast_subset c.data hx) hlow
        rw [sqlLike_data_eq c.data.dropLast r.code hmd hld (hstore r hrs) _
          (by rw [String.data_append, strData_mk])] at hlike
        exact hlike
      · have hd : c.data.dropLast = [] := by
          have hlc : c.data.length ≤ 1 := by
            rw [← strLength_data]; omega
          cases hcd : c.data with
          | nil => rfl
          | cons a t =>
            cases t with
            | nil => rfl
            | cons b t' => rw [hcd] at hlc; simp at hlc
        rw [hd]
        simp [List.isPrefixOf]
  · decide

/-- Witness for C6 at the example store, queried code `E11.9` and the
sibling `E11.21`. -/
theorem hierarchy_siblings_invariant_witness :
    (e1121.code ≠ "E11.9"
      ∧ strIsPrefixOf (siblingParentStr "E11.9") e1121.code = true
      ∧ (("E11.9" : String).data.contains '.' = false →
          e1121.code.length = ("E11.9" : String).length))
    ∧ getHierarchy exampleStore "E11.9" .siblings 2
        = getHierarchy exampleStore "E11.9" .siblings 4 :=
  have h := hierarchy_siblings_invariant.1 exampleStore "E11.9" 2 4
    (by decide) (by decide) (by decide)
  ⟨h.1 e1121 (by decide), h.2⟩

/-! ### Claim theorems: query expansion -/

/-- C1: the pattern phase has precedence — whenever a pattern (in
priority-descending order, placeholders concretized over the body-part
vocabulary) matches as a substring of the normalized query, its expansion
is returned immediately and no term-level synonym expansion happens; in
particular "broken arm" yields "fracture arm" (via pattern
`broken BODYPART`), never the term-phase union
"broken OR fracture OR fractured OR arm". -/
theorem expansion_pattern_precedence :
    (∀ (dict : DictState) (q e : String),
      patternPhase (insertionSortB patLeB dict.patterns) (jsTrim (jsToLower q)) = some e →
      enhanceSearchQuery dict q = e)
    ∧ enhanceSearchQuery defaultDict "broken arm" = "fracture arm"
    ∧ termPhase defaultDict.synonyms "broken arm"
        = "broken OR fracture OR fractured OR arm"
    ∧ enhanceSearchQuery defaultDict "broken arm"
        ≠ termPhase defaultDict.synonyms "broken arm" := by
  refine ⟨?_, by decide, by decide, by decide⟩
  intro dict q e h
  show (match patternPhase (insertionSortB patLeB dict.patterns) (jsTrim (jsToLower q)) with
      | some expansion => expansion
      | none => termPhase dict.synonyms (jsTrim (jsToLower q))) = e
  rw [h]

/-- Witness for C1 at the query "broken arm" over the startup dictionary. -/
theorem expansion_pattern_precedence_witness :
    patternPhase (insertionSortB patLeB defaultDict.patterns)
        (jsTrim (jsToLower "broken arm")) = some "fracture arm"
    ∧ enhanceSearchQuery defaultDict "broken arm" = "fracture arm" :=
  ⟨by decide,
   expansion_pattern_precedence.1 defaultDict "broken arm" "fracture arm" (by decide)⟩

/-- C2 counterexample: for the query "ab" no pattern matches and the single
token "ab" is filtered (shorter than 3 characters), but the code returns
the empty string — the ` OR `-join of the empty set — not the normalized
original query "ab" that the claim promises. -/
theorem expansion_empty_fallback_cex :
    enhanceSearchQuery defaultDict "ab" = ""
    ∧ jsTrim (jsToLower "ab") = "ab"
    ∧ enhanceSearchQuery defaultDict "ab" ≠ jsTrim (jsToLower "ab") :=
  ⟨by decide, by decide, by decide⟩

/-- C2 (amended): when no pattern matches and every whitespace-split token
has fewer than 3 characters after stripping non-word characters, `expand`
returns the empty string (no fallback to the normalized query exists in
the code). -/
theorem expansion_empty_amended :
    ∀ (dict : DictState) (q : String),
      patternPhase (insertionSortB patLeB dict.patterns) (jsTrim (jsToLower q)) = none →
      (∀ w ∈ splitWs (jsTrim (jsToLower q)), (cleanWordOf w).length < 3) →
      enhanceSearchQuery dict q = "" := by
  intro dict q hpat hshort
  show (match patternPhase (insertionSortB patLeB dict.patterns) (jsTrim (jsToLower q)) with
      | some expansion => expansion
      | none => termPhase dict.synonyms (jsTrim (jsToLower q))) = ""
  rw [hpat]
  show termPhase dict.synonyms (jsTrim (jsToLower q)) = ""
  unfold termPhase
  have hfold : ∀ (ws : List String), (∀ w ∈ ws, (cleanWordOf w).length < 3) →
      ∀ acc : List String, ws.foldl (termStep dict.synonyms) acc = acc := by
    intro ws
    induction ws with
    | nil => intro _ acc; rfl
    | cons w ws' ih =>
      intro hws acc
      rw [List.foldl_cons]
      have hstep : termStep dict.synonyms acc w = acc := by
        unfold termStep
        rw [if_pos (hws w (List.mem_cons_self w ws'))]
      rw [hstep]
      exact ih (fun x hx => hws x (List.mem_cons_of_mem w hx)) acc
  rw [hfold (splitWs (jsTrim (jsToLower q))) hshort []]
  rfl

/-- Witness for the amended C2 theorem at the query "ab". -/
theorem expansion_empty_amended_witness :
    patternPhase (insertionSortB patLeB defaultDict.patterns)
        (jsTrim (jsToLower "ab")) = none
    ∧ (∀ w ∈ splitWs (jsTrim (jsToLower "ab")), (cleanWordOf w).length < 3)
    ∧ enhanceSearchQuery defaultDict "ab" = "" :=
  ⟨by decide, by decide,
   expansion_empty_amended defaultDict "ab" (by decide) (by decide)⟩

/-! ### Association-list lemmas for the validation mapping -/

theorem lookupKey_cons (p : String × ValidationResult)
    (m : List (String × ValidationResult)) (k : String) :
    lookupKey (p :: m) k = if p.1 == k then some p.2 else lookupKey m k := by
  unfold lookupKey
  rw [List.find?_cons]
  cases h : (p.1 == k) with
  | true => rfl
  | false => rfl

theorem mapOverwrite_id (m : List (String × ValidationResult)) (k : String)
    (v : ValidationResult) (h : (m.any fun x => x.1 == k) = false) :
    (m.map fun x => if x.1 == k then (k, v) else x) = m := by
  induction m with
  | nil => rfl
  | cons p m' ih =>
    simp only [List.any_cons, Bool.or_eq_false_iff] at h
    simp only [List.map_cons]
    rw [if_neg (show ¬((p.1 == k) = true) by simp [h.1]), ih h.2]

theorem lookupKey_mapOverwrite (m : List (String × ValidationResult))
    (k : String) (v : ValidationResult) (k' : String) (hne : k ≠ k') :
    lookupKey (m.map fun x => if x.1 == k then (k, v) else x) k'
      = lookupKey m k' := by
  induction m with
  | nil => rfl
  | cons p m' ih =>
    rw [List.map_cons]
    by_cases hpk : (p.1 == k) = true
    · rw [if_pos hpk, lookupKey_cons, lookupKey_cons]
      have hkk' : (k == k') = false := beq_eq_false_iff_ne.2 hne
      have hpk' : (p.1 == k') = false := by
        have h1 : p.1 = k := by simpa using hpk
        rw [h1]; exact hkk'
      rw [if_neg (show ¬(((k, v).1 == k') = true) by simp [hkk']),
          if_neg (show ¬((p.1 == k') = true) by simp [hpk'])]
      exact ih
    · rw [if_neg hpk, lookupKey_cons, lookupKey_cons, ih]

theorem lookupKey_append_single (m : List (String × ValidationResult))
    (k : String) (v : ValidationResult) (k' : String) (hne : k ≠ k') :
    lookupKey (m ++ [(k, v)]) k' = lookupKey m k' := by
  induction m with
  | nil =>
    show lookupKey [(k, v)] k' = lookupKey [] k'
    rw [lookupKey_cons]
    have hkk' : (k == k') = false := beq_eq_false_iff_ne.2 hne
    simp [hkk']
  | cons p m' ih =>
    rw [List.cons_append, lookupKey_cons, lookupKey_cons, ih]

theorem assocSet_lookup_other (m : List (String × ValidationResult))
    (k : String) (v : ValidationResult) (k' : String) (hne : k ≠ k') :
    lookupKey (assocSet m k v) k' = lookupKey m k' := by
  unfold assocSet
  by_cases hany : (m.any fun x => x.1 == k) = true
  · rw [if_pos hany]
    exact lookupKey_mapOverwrite m k v k' hne
  · rw [if_neg hany]
    exact lookupKey_append_single m k v k' hne

theorem assocSet_lookup_self :
    ∀ (m : List (String × ValidationResult)) (k : String) (v : ValidationResult),
      lookupKey (assocSet m k v) k = some v := by
  intro m
  induction m with
  | nil =>
    intro k v
    show lookupKey [(k, v)] k = some v
    rw [lookupKey_cons]
    simp
  | cons p m' ih =>
    intro k v
    unfold assocSet
    by_cases hany : ((p :: m').any fun x => x.1 == k) = true
    · rw [if_pos hany, List.map_cons]
      by_cases hpk : (p.1 == k) = true
      · rw [if_pos hpk, lookupKey_cons]
        simp
      · rw [if_neg hpk, lookupKey_cons, if_neg hpk]
        have hany' : (m'.any fun x => x.1 == k) = true := by
          simp only [List.any_cons, Bool.or_eq_true] at hany
          rcases hany with h | h
          · exact absurd h hpk
          · exact h
        have ih' := ih k v
        unfold assocSet at ih'
        rw [if_pos hany'] at ih'
        exact ih'
    · rw [if_neg hany, List.cons_append, lookupKey_cons]
      have hboth : ((p.1 == k) = false) ∧ ((m'.any fun x => x.1 == k) = false) := by
        revert hany
        simp only [List.any_cons, Bool.or_eq_true]
        intro hany
        constructor
        · cases h : (p.1 == k)
          · rfl
          · exact absurd (Or.inl h) hany
        · cases h : (m'.any fun x => x.1 == k)
          · rfl
          · exact absurd (Or.inr h) hany
      rw [if_neg (by rw [hboth.1]; exact Bool.noConfusion)]
      have ih' := ih k v
      unfold assocSet at ih'
      rw [if_neg (by rw [hboth.2]; exact Bool.noConfusion)] at ih'
      exact ih'

theorem foldl_assocSet_not_mem (f : String → ValidationResult) :
    ∀ (ks : List String) (m : List (String × ValidationResult)) (k : String),
      k ∉ ks →
      lookupKey (ks.foldl (fun acc c => assocSet acc c (f c)) m) k = lookupKey m k := by
  intro ks
  induction ks with
  | nil => intro m k _; rfl
  | cons c ks' ih =>
    intro m k hk
    rw [List.foldl_cons]
    rw [ih _ k (fun h => hk (List.mem_cons_of_mem c h))]
    exact assocSet_lookup_other m c (f c) k
      (fun h => hk (by rw [h]; exact List.mem_cons_self _ _))

theorem foldl_assocSet_mem (f : String → ValidationResult) :
    ∀ (ks : List String) (m : List (String × ValidationResult)) (k : String),
      k ∈ ks →
      lookupKey (ks.foldl (fun acc c => assocSet acc c (f c)) m) k = some (f k) := by
  intro ks
  induction ks with
  | nil => intro m k hk; simp at hk
  | cons k' ks' ih =>
    intro m k hk
    rw [List.foldl_cons]
    by_cases hmem : k ∈ ks'
    · exact ih _ k hmem
    · have hkk' : k = k' := by
        rcases List.mem_cons.1 hk with h | h
        · exact h
        · exact absurd h hmem
      subst hkk'
      rw [foldl_assocSet_not_mem f ks' _ k hmem]
      exact assocSet_lookup_self m k (f k)

theorem foldl_assocSet_values (f : String → ValidationResult) :
    ∀ (ks : List String) (m : List (String × ValidationResult))
      (k : String) (v : ValidationResult),
      (∀ k₀ v₀, lookupKey m k₀ = some v₀ → v₀ = f k₀) →
      lookupKey (ks.foldl (fun acc c => assocSet acc c (f c)) m) k = some v →
      v = f k := by
  intro ks
  induction ks with
  | nil => intro m k v hm h; exact hm k v h
  | cons c ks' ih =>
    intro m k v hm h
    rw [List.foldl_cons] at h
    refine ih _ k v ?_ h
    intro k₀ v₀ h₀
    by_cases hkc : c = k₀
    · subst hkc
      have h1 := h₀.symm.trans (assocSet_lookup_self m c (f c))
      exact Option.some.inj h1
    · rw [assocSet_lookup_other m c (f c) k₀ hkc] at h₀
      exact hm k₀ v₀ h₀

/-! ### Claim theorems: batch validation and handlers -/

/-- C7: the batch-validation mapping sends every input code, upper-cased,
to the found-record result (valid, billability, description, dates, plus
the non-billable warning exactly when `checkBillable` is set and the
record is not billable), or to the
`valid:false / billable:false / "Code not found"` result when absent. -/
theorem batch_validation_mapping :
    ∀ (store : List ICD10Code) (codes : List String) (cb : Bool)
      (eff : Option String) (c : String), c ∈ codes →
      lookupKey (validateCodes store codes cb eff) (jsToUpper c)
        = some (match store.find? (fun r =>
              r.code == jsToUpper c &&
                match eff with
                | none => true
                | some d => inEffectB r d) with
            | some codeData =>
              { valid := true
                billable := codeData.is_billable
                description := some codeData.description
                effective_date := codeData.effective_date
                end_date := codeData.end_date
                warning :=
                  if cb && !codeData.is_billable then
                    some "Code exists but is not billable"
                  else none
                error := none }
            | none =>
              { valid := false, billable := false, description := none
                effective_date := none, end_date := none, warning := none
                error := some "Code not found" }) := by
  intro store codes cb eff c hc
  have hne : codes.isEmpty = false := by
    cases codes with
    | nil => simp at hc
    | cons a l => rfl
  unfold validateCodes
  rw [if_neg (by rw [hne]; exact Bool.noConfusion)]
  rw [foldl_assocSet_mem (valResult store cb eff) (codes.map jsToUpper) []
    (jsToUpper c) (List.mem_map_of_mem jsToUpper hc)]
  rfl

/-- Witness for C7: the batch `["e11.9", "FAKE123"]` over the example
store; `e11.9` is found (upper-cased, billable). -/
theorem batch_validation_mapping_witness :
    ("e11.9" ∈ (["e11.9", "FAKE123"] : List String))
    ∧ lookupKey (validateCodes exampleStore ["e11.9", "FAKE123"] true none)
        (jsToUpper "e11.9")
        = some { valid := true, billable := true
                 description := some "Type 2 diabetes mellitus without complications"
                 effective_date := none, end_date := none
                 warning := none, error := none } :=
  ⟨by decide,
   (batch_validation_mapping exampleStore ["e11.9", "FAKE123"] true none "e11.9"
      (by decide)).trans (by decide)⟩

/-- C8: the summary counts of `handleValidateBatch` are a pure reduction
over the validation mapping: valid and billable counts count the mapping
entries with those flags, the invalid count is the total (input length)
minus the valid count. -/
theorem batch_summary_reduction :
    ∀ (store : List ICD10Code) (codes : List String) (cb : Bool)
      (eff : Option String),
      (handleValidateBatch store codes cb eff).total_codes = codes.length
      ∧ (handleValidateBatch store codes cb eff).valid_codes
          = ((validateCodes store codes cb eff).filter fun p => p.2.valid).length
      ∧ (handleValidateBatch store codes cb eff).billable_codes
          = ((validateCodes store codes cb eff).filter fun p => p.2.billable).length
      ∧ (handleValidateBatch store codes cb eff).invalid_codes
          = codes.length - (handleValidateBatch store codes cb eff).valid_codes
      ∧ (handleValidateBatch store codes cb eff).validation_results
          = validateCodes store codes cb eff :=
  fun _ _ _ _ => ⟨rfl, rfl, rfl, rfl, rfl⟩

/-- C9: lookup, batch validation and search all use the same in-effect
window — `effectiveDate` null or `≤ D`, and `endDate` null or `> D` — and
exclude records failing it whenever a date `D` is supplied. -/
theorem effective_date_window :
    (∀ (r : ICD10Code) (d : String),
      inEffectB r d = true ↔
        ((r.effective_date = none
            ∨ ∃ e, r.effective_date = some e ∧ strLeB e d = true)
          ∧ (r.end_date = none
            ∨ ∃ t, r.end_date = some t ∧ strLtB d t = true)))
    ∧ (∀ (store : List ICD10Code) (c : String) (d : String) (r : ICD10Code),
        getCode store c (some d) = some r → inEffectB r d = true)
    ∧ (∀ (store : List ICD10Code) (codes : List String) (cb : Bool) (d : String)
        (k : String) (v : ValidationResult),
        lookupKey (validateCodes store codes cb (some d)) k = some v →
        v.valid = true →
        ∃ r, r ∈ store ∧ r.code = k ∧ inEffectB r d = true)
    ∧ (∀ (ftsRows : List ICD10Code) (lim : Nat) (cf : Option (List String))
        (bo : Bool) (d : String) (r : ICD10Code),
        r ∈ searchCodes ftsRows ⟨lim, cf, bo, some d⟩ → inEffectB r d = true) := by
  refine ⟨?_, ?_, ?_, ?_⟩
  · intro r d
    cases he : r.effective_date with
    | none =>
      cases ht : r.end_date with
      | none => simp [inEffectB, he, ht]
      | some t => simp [inEffectB, he, ht]
    | some e =>
      cases ht : r.end_date with
      | none => simp [inEffectB, he, ht]
      | some t => simp [inEffectB, he, ht]
  · intro store c d r h
    unfold getCode at h
    have hp := List.find?_some h
    simp only [Bool.and_eq_true] at hp
    exact hp.2
  · intro store codes cb d k v hlk hval
    unfold validateCodes at hlk
    by_cases hemp : codes.isEmpty = true
    · rw [if_pos hemp] at hlk
      exact absurd hlk (by simp [lookupKey])
    · rw [if_neg hemp] at hlk
      have hv := foldl_assocSet_values (valResult store cb (some d))
        (codes.map jsToUpper) [] k v
        (by intro k₀ v₀ h₀; exact absurd h₀ (by simp [lookupKey])) hlk
      rw [hv] at hval
      unfold valResult at hval
      cases hfind : store.find? (fun r =>
          r.code == k &&
            match some d with
            | none => true
            | some d => inEffectB r d) with
      | none => rw [hfind] at hval; simp at hval
      | some r =>
        rw [hfind] at hval
        have hp := List.find?_some hfind
        simp only [Bool.and_eq_true] at hp
        exact ⟨r, List.mem_of_find?_eq_some hfind, by simpa using hp.1, hp.2⟩
  · intro ftsRows lim cf bo d r h
    unfold searchCodes at h
    have h1 := List.mem_of_mem_take h
    have h2 := List.mem_filter.1 h1
    have hp := h2.2
    simp only [Bool.and_eq_true] at hp
    exact hp.2

/-- Witness for C9 applying the lookup, batch-validation and search parts
at a dated record. -/
theorem effective_date_window_witness :
    inEffectB e119d "2024-01-01" = true
    ∧ (∃ r, r ∈ [e119d] ∧ r.code = "E11.9" ∧ inEffectB r "2024-01-01" = true)
    ∧ inEffectB e119d "2025-06-30" = true :=
  ⟨effective_date_window.2.1 [e119d] "e11.9" "2024-01-01" e119d (by decide),
   effective_date_window.2.2.1 [e119d] ["e11.9"] false "2024-01-01" "E11.9"
     { valid := true, billable := true
       description := some "Type 2 diabetes mellitus without complications"
       effective_date := some "2020-01-01", end_date := some "2026-01-01"
       warning := none, error := none } (by decide) (by decide),
   effective_date_window.2.2.2 [e119d] 20 none false "2025-06-30" e119d (by decide)⟩

/-- C10: when the queried base code is not stored, the hierarchy handler
fails with the invalid-parameter error exactly when the navigation result
is empty; otherwise it succeeds with a synthesized base code whose
description is the queried code followed by " category codes", whose
`is_billable` is false, and whose chapter fields are copied from the first
navigation result. -/
theorem hierarchy_base_fallback :
    ∀ (store : List ICD10Code) (code : String) (direction : HDirection) (d : Nat),
      getCode store code none = none →
      ((∃ e, handleHierarchy store code direction d = .error e)
          ↔ getHierarchy store code direction d = [])
      ∧ (∀ first rest, getHierarchy store code direction d = first :: rest →
          ∃ resp, handleHierarchy store code direction d = .ok resp
            ∧ resp.base_code.description = code ++ " category codes"
            ∧ resp.base_code.is_billable = false
            ∧ resp.base_code.chapter_code = first.chapter_code
            ∧ resp.base_code.chapter_name = first.chapter_name
            ∧ resp.base_code.code = code) := by
  intro store code direction d hbase
  cases hres : getHierarchy store code direction d with
  | nil =>
    have hh : handleHierarchy store code direction d
        = .error ("No codes found for '" ++ code ++ "' and no hierarchy available") := by
      unfold handleHierarchy
      rw [hbase, hres]
    refine ⟨⟨fun _ => rfl, fun _ => ⟨_, hh⟩⟩, ?_⟩
    intro first rest hcontra
    exact List.noConfusion hcontra
  | cons f rest' =>
    have hh : handleHierarchy store code direction d
        = .ok { base_code :=
                  { code := code
                    description := code ++ " category codes"
                    category := if 3 ≤ code.length then ⟨code.data.take 3⟩ else code
                    subcategory := some code
                    chapter_code := f.chapter_code
                    chapter_name := f.chapter_name
                    is_billable := false
                    is_valid_primary := true
                    effective_date := f.effective_date
                    end_date := none
                    revision_year :=
                      if f.revision_year = 0 then 2024 else f.revision_year }
                direction := direction, max_depth := d
                total_results := (f :: rest').length, results := f :: rest' } := by
      unfold handleHierarchy
      rw [hbase, hres]
    constructor
    · constructor
      · intro he
        obtain ⟨e, he⟩ := he
        rw [hh] at he
        exact Except.noConfusion he
      · intro h0
        exact List.noConfusion h0
    · intro first rest h1
      injection h1 with h1a h1b
      subst h1a
      exact ⟨_, hh, rfl, rfl, rfl, rfl, rfl⟩

/-- Witness for C10: `E11.2` is not stored but has children in the example
store, so the handler synthesizes the placeholder base code. -/
theorem hierarchy_base_fallback_witness :
    getCode exampleStore "E11.2" none = none
    ∧ (∃ resp, handleHierarchy exampleStore "E11.2" .children 2 = .ok resp
        ∧ resp.base_code.description = "E11.2" ++ " category codes"
        ∧ resp.base_code.is_billable = false
        ∧ resp.base_code.chapter_code = e1121.chapter_code
        ∧ resp.base_code.chapter_name = e1121.chapter_name
        ∧ resp.base_code.code = "E11.2") :=
  ⟨by decide,
   (hierarchy_base_fallback exampleStore "E11.2" .children 2 (by decide)).2
     e1121 [e1122] (by decide)⟩

end ICD10
